import Mathlib

/-
  Shallow embedding of the tunaturk chess engine (src/src/engine.rs and
  src/src/main.rs).  The chess-rules library (cozy_chess) is an external
  collaborator: boards, moves, hashing, legal-move generation, terminal
  status and per-color occupancy counts are abstracted as a record of
  functions (ChessApi).  Everything below it (evaluate, negamax, the search
  stack, the go-command parser, the budget resolver, find_best_move and the
  worker-side Go handling) is translated from the source.
-/

namespace Tunaturk

/-- Game status as exposed by the external rules library (cozy_chess::GameStatus). -/
inductive GameStatus
  | Ongoing
  | Won
  | Drawn
deriving DecidableEq, Repr

/-- Side color (cozy_chess::Color). -/
inductive Color
  | White
  | Black
deriving DecidableEq, Repr

/-- Abstract interface of the external chess-rules collaborator.  B is the
board type, M the move type.  hash models Board::hash (u64, abstracted to
Nat), genMoves models collecting every move from Board::generate_moves in
generator order, play models Board::play_unchecked on a clone, colorLen
models board.colors(color).len(). -/
structure ChessApi (B M : Type) where
  status : B → GameStatus
  sideToMove : B → Color
  hash : B → Nat
  genMoves : B → List M
  play : B → M → B
  colorLen : B → Color → Nat

/-- Engine::evaluate (engine.rs lines 268-280): raw occupied-square count
difference times the side-to-move sign.  Scores are i32 in the source; the
values reachable here are tiny, so Int is used directly. -/
def evaluate {B M : Type} (api : ChessApi B M) (b : B) : Int :=
  let whoMovin : Int := if api.sideToMove b = Color.White then 1 else -1
  let whiteMaterial : Int := (api.colorLen b Color.White : Int)
  let blackMaterial : Int := (api.colorLen b Color.Black : Int)
  (whiteMaterial - blackMaterial) * whoMovin

/-- Search state threaded through negamax: the fixed-capacity ancestry
stack of position hashes (search_stack, one slot per remaining depth) and
the visited-node counter (search_info.nodes).  The tt_hits and cutoffs
counters of SearchInfo are never read nor written by the search and are
omitted. -/
structure SState where
  stack : List Nat
  nodes : Nat
deriving DecidableEq, Repr

/-- EndCondition (engine.rs lines 97-102).  Time stores the number of
milliseconds allotted from the instant the resolver computed it (the source
stores the absolute Instant deadline). -/
inductive EndCondition
  | Time (ms : Nat)
  | Nodes (n : Nat)
  | Depth (d : Nat)
  | Infinite
deriving DecidableEq, Repr

/-- The leaf branch of negamax (engine.rs lines 225-235): the match on
board.status() taken when depth == 0 or the status is not Ongoing. -/
def leafScore {B M : Type} (api : ChessApi B M) (b : B) : Option M × Int :=
  match api.status b with
  | GameStatus.Drawn => (none, 0)
  | GameStatus.Won =>
      if api.sideToMove b = Color.White then (none, 1000) else (none, -1000)
  | GameStatus.Ongoing => (none, evaluate api b)

/-- The move loop of negamax (engine.rs lines 246-263), with the recursive
call abstracted as child: for each move, bump the node counter, play the
move on a clone, recurse, negate the returned score, and keep the move
whose negated score strictly exceeds the running maximum. -/
def searchMoves {B M : Type} (child : SState → B → SState × (Option M × Int))
    (play : B → M → B) (b : B) :
    List M → SState → Option M × Int → SState × (Option M × Int)
  | [], st, acc => (st, acc)
  | mv :: rest, st, acc =>
    let stN : SState := { st with nodes := st.nodes + 1 }
    let res := child stN (play b mv)
    let score : Int := -res.2.2
    searchMoves child play b rest res.1
      (if score > acc.2 then (some mv, score) else acc)

/-- Engine::negamax (engine.rs lines 213-266).  stop is the shared
cancellation flag (held constant for the modelled invocation), ec the
resolved end condition, which the body receives but never consults (its
only use in the source is commented out).  The depth-0 arm and the
successor arm both follow the source line by line; the source guards the
leaf match with depth == 0 or-else a non-Ongoing status, which is split
over the two arms here. -/
def negamax {B M : Type} (api : ChessApi B M) (stop : Bool) (ec : EndCondition) :
    Nat → SState → B → SState × (Option M × Int)
  | 0, st, b =>
    if stop then (st, (none, 0))
    else
      let h := api.hash b
      let st1 : SState := { st with stack := st.stack.set 0 h }
      (st1, leafScore api b)
  | d + 1, st, b =>
    if stop then (st, (none, 0))
    else
      let h := api.hash b
      let st1 : SState := { st with stack := st.stack.set (d + 1) h }
      if api.status b ≠ GameStatus.Ongoing then
        (st1, leafScore api b)
      else if (st1.stack.drop (d + 2)).any (fun x => x == h) then
        (st1, (none, 0))
      else
        searchMoves (negamax api stop ec d) api.play b (api.genMoves b) st1
          (none, -1000)

/-- The fresh search state built by find_best_move before the top-level
negamax call: search_stack = vec of 16 zeroed slots, node counter reset. -/
def initState : SState :=
  { stack := List.replicate 16 0, nodes := 0 }

/-- Decimal unsigned parse modelling str::parse::<u32> (an optional leading
plus sign, then one or more digits, value below 2^32; the source rejects
overflowing values during accumulation, which for digit-only strings is
the same as the final range check used here). -/
def parseU32 (s : String) : Option Nat :=
  let cs : List Char :=
    match s.data with
    | '+' :: rest => rest
    | l => l
  if cs.isEmpty then none
  else if cs.all Char.isDigit then
    let n := cs.foldl (fun acc c => acc * 10 + (c.toNat - 48)) 0
    if n < 4294967296 then some n else none
  else none

/-- The find_arg macro (engine.rs lines 20-29): if the keyword is present,
take the token right after its first occurrence and parse it as a u32,
aborting (Except.error, modelling the unwrap panics) when the keyword is
the last token or the next token fails to parse; if absent, yield none. -/
def findArg (split : List String) (kw : String) : Except Unit (Option Nat) :=
  if kw ∈ split then
    match split[split.findIdx (fun s => s == kw) + 1]? with
    | some t =>
      match parseU32 t with
      | some n => Except.ok (some n)
      | none => Except.error ()
    | none => Except.error ()
  else Except.ok none

/-- GoInfo (engine.rs lines 8-19): the parsed go-command parameters. -/
structure GoInfo where
  wtime : Option Nat
  btime : Option Nat
  winc : Option Nat
  binc : Option Nat
  movesToGo : Option Nat
  depth : Option Nat
  nodes : Option Nat
  mate : Option Nat
  movetime : Option Nat
  infinite : Bool
deriving DecidableEq, Repr

/-- GoInfo::new (engine.rs lines 31-54) on the already-tokenized input:
each field comes from find_arg on its keyword, in source field order, and
any field abort aborts the whole construction; infinite is keyword
presence. -/
def GoInfo.new (split : List String) : Except Unit GoInfo :=
  match findArg split "wtime" with
  | Except.error e => Except.error e
  | Except.ok wtime =>
  match findArg split "btime" with
  | Except.error e => Except.error e
  | Except.ok btime =>
  match findArg split "winc" with
  | Except.error e => Except.error e
  | Except.ok winc =>
  match findArg split "binc" with
  | Except.error e => Except.error e
  | Except.ok binc =>
  match findArg split "movestogo" with
  | Except.error e => Except.error e
  | Except.ok movesToGo =>
  match findArg split "depth" with
  | Except.error e => Except.error e
  | Except.ok depth =>
  match findArg split "nodes" with
  | Except.error e => Except.error e
  | Except.ok nodes =>
  match findArg split "mate" with
  | Except.error e => Except.error e
  | Except.ok mate =>
  match findArg split "movetime" with
  | Except.error e => Except.error e
  | Except.ok movetime =>
    Except.ok
      { wtime := wtime, btime := btime, winc := winc, binc := binc,
        movesToGo := movesToGo, depth := depth, nodes := nodes,
        mate := mate, movetime := movetime,
        infinite := decide ("infinite" ∈ split) }

/-- The nine recognized numeric keywords of the go command. -/
def recognizedKeywords : List String :=
  ["wtime", "btime", "winc", "binc", "movestogo", "depth", "nodes", "mate",
   "movetime"]

/-- The GoInfo field owned by a recognized keyword. -/
def GoInfo.field (g : GoInfo) : String → Option Nat
  | "wtime" => g.wtime
  | "btime" => g.btime
  | "winc" => g.winc
  | "binc" => g.binc
  | "movestogo" => g.movesToGo
  | "depth" => g.depth
  | "nodes" => g.nodes
  | "mate" => g.mate
  | "movetime" => g.movetime
  | _ => none

/-- The budget-resolution chain of Engine::find_best_move (engine.rs lines
162-198).  The arithmetic of the clock heuristic is u32: the subtraction is
guarded by the comparison, the multiplication by 3 wraps modulo 2^32 (the
release-profile semantics of the source), and the remaining operations
cannot leave the u32 range for u32 inputs.  Depth is narrowed with an
as-u8 cast, which truncates modulo 256.  none models the final panic
(no end condition findable). -/
def resolveEndCondition (info : GoInfo) (mySide : Color) : Option EndCondition :=
  if info.infinite then some EndCondition.Infinite
  else
    match info.nodes with
    | some nodes => some (EndCondition.Nodes nodes)
    | none =>
      match info.depth with
      | some depth => some (EndCondition.Depth (depth % 256))
      | none =>
        match info.movetime with
        | some movetime => some (EndCondition.Time movetime)
        | none =>
          match info.btime, info.wtime with
          | some btime, some wtime =>
            let myTime : Nat :=
              match mySide with
              | Color.Black => btime
              | Color.White => wtime
            let otherTime : Nat :=
              match mySide with
              | Color.Black => wtime
              | Color.White => btime
            let timeLeft : Nat :=
              if otherTime < myTime then
                (myTime - otherTime) * 3 % 4294967296 / 4 + myTime / 10
              else
                myTime / 10
            some (EndCondition.Time timeLeft)
          | _, _ => none

/-- Outcome of Engine::find_best_move as observed by the worker thread:
configFail models the explicit panic when no end condition is resolvable,
unwrapFail models the out.unwrap() panic on a no-move search result (the
score and node count of the abandoned search are carried for inspection),
and ok carries the returned move with the reported score and node count. -/
inductive FindResult (M : Type)
  | configFail
  | unwrapFail (score : Int) (nodes : Nat)
  | ok (m : M) (score : Int) (nodes : Nat)
deriving DecidableEq, Repr

/-- Engine::find_best_move (engine.rs lines 159-210): resolve the end
condition, reset the search stack to 16 zeroed slots and the node counter
to 0, run negamax at the hard-coded depth 3, and unwrap the returned
move. -/
def find_best_move {B M : Type} (api : ChessApi B M) (stop : Bool)
    (info : GoInfo) (mySide : Color) (b : B) : FindResult M :=
  match resolveEndCondition info mySide with
  | none => FindResult.configFail
  | some ec =>
    let r := negamax api stop ec 3 initState b
    match r.2.1 with
    | none => FindResult.unwrapFail r.2.2 r.1.nodes
    | some m => FindResult.ok m r.2.2 r.1.nodes

/-- The search actually performed once an end condition resolved: negamax
at a fixed depth from the fresh state, under an arbitrary fixed end
condition (Infinite here; negamax never reads it). -/
def searchAtDepth {B M : Type} (api : ChessApi B M) (stop : Bool) (d : Nat)
    (b : B) : FindResult M :=
  let r := negamax api stop EndCondition.Infinite d initState b
  match r.2.1 with
  | none => FindResult.unwrapFail r.2.2 r.1.nodes
  | some m => FindResult.ok m r.2.2 r.1.nodes

/-- Whether the worker Go handler (main.rs lines 43-46) reaches its
bestmove output line: it does exactly when find_best_move returns a move;
both panics abort the worker thread before the println. -/
def bestmoveEmitted {M : Type} : FindResult M → Bool
  | FindResult.ok _ _ _ => true
  | _ => false

/-- Selection rule stated by the specification for the move loop, over a
fixed per-move score function: scan the moves in generator order, keeping
the move whose (already negated) score strictly exceeds the best seen so
far, starting from the sentinel accumulator. -/
def selectBest {M : Type} (f : M → Int) :
    List M → Option M × Int → Option M × Int
  | [], acc => acc
  | mv :: rest, acc =>
    selectBest f rest (if f mv > acc.2 then (some mv, f mv) else acc)

/-- A tiny concrete instance of the external rules interface, used to
exercise the theorems on explicit inputs.  Position 0 is ongoing with two
moves (to 1, won with Black to move, and to 2, drawn); every other
position has no moves. -/
def toyApi : ChessApi Nat Nat where
  status b := if b = 0 then GameStatus.Ongoing else if b = 1 then GameStatus.Won
    else if b = 2 then GameStatus.Drawn else GameStatus.Ongoing
  sideToMove b := if b % 2 = 0 then Color.White else Color.Black
  hash b := b + 1
  genMoves b := if b = 0 then [0, 1] else []
  play b m := b + m + 1
  colorLen b c := if c = Color.White then b else 0

/-- A concrete instance whose single move from position 0 reaches a
position that is won with White to move, so the child leaf scores +1000
and the parent sees a single negated score of exactly -1000. -/
def cexApi : ChessApi Nat Nat where
  status b := if b = 0 then GameStatus.Ongoing else GameStatus.Won
  sideToMove _ := Color.White
  hash b := b + 1
  genMoves b := if b = 0 then [0] else []
  play b m := b + m + 1
  colorLen _ _ := 0

/-- A GoInfo with every parameter absent. -/
def emptyGo : GoInfo :=
  { wtime := none, btime := none, winc := none, binc := none,
    movesToGo := none, depth := none, nodes := none, mate := none,
    movetime := none, infinite := false }

/-- An entry state whose slot 2 already holds the hash of toy position 0. -/
def repState : SState :=
  { stack := [7, 7, 1] ++ List.replicate 13 7, nodes := 0 }

/-- A GoInfo carrying only the two example clocks. -/
def clkGo : GoInfo := { emptyGo with wtime := some 10000, btime := some 4000 }

/-- A GoInfo carrying the maximal u32 clock for White and zero for Black. -/
def bigClkGo : GoInfo := { emptyGo with wtime := some 4294967295, btime := some 0 }

/-- A GoInfo asking for depth 300. -/
def depth300Go : GoInfo := { emptyGo with depth := some 300 }

/-- Unfolding of negamax at depth 0. -/
theorem negamax_zero {B M : Type} (api : ChessApi B M) (stop : Bool)
    (ec : EndCondition) (st : SState) (b : B) :
    negamax api stop ec 0 st b =
      if stop then (st, (none, 0))
      else ({ st with stack := st.stack.set 0 (api.hash b) }, leafScore api b) :=
  rfl

/-- Unfolding of negamax at a successor depth. -/
theorem negamax_succ {B M : Type} (api : ChessApi B M) (stop : Bool)
    (ec : EndCondition) (d : Nat) (st : SState) (b : B) :
    negamax api stop ec (d + 1) st b =
      if stop then (st, (none, 0))
      else
        if api.status b ≠ GameStatus.Ongoing then
          ({ st with stack := st.stack.set (d + 1) (api.hash b) }, leafScore api b)
        else if ((st.stack.set (d + 1) (api.hash b)).drop (d + 2)).any
            (fun x => x == api.hash b) then
          ({ st with stack := st.stack.set (d + 1) (api.hash b) }, (none, 0))
        else
          searchMoves (negamax api stop ec d) api.play b (api.genMoves b)
            { st with stack := st.stack.set (d + 1) (api.hash b) }
            (none, -1000) :=
  rfl

/-- Unfolding of the move loop on a cons cell. -/
theorem searchMoves_cons {B M : Type}
    (child : SState → B → SState × (Option M × Int)) (play : B → M → B)
    (b : B) (mv : M) (rest : List M) (st : SState) (acc : Option M × Int) :
    searchMoves child play b (mv :: rest) st acc =
      searchMoves child play b rest
        (child { st with nodes := st.nodes + 1 } (play b mv)).1
        (if -(child { st with nodes := st.nodes + 1 } (play b mv)).2.2 > acc.2
         then (some mv, -(child { st with nodes := st.nodes + 1 } (play b mv)).2.2)
         else acc) :=
  rfl

/-- Writing any slot at an index below j leaves the drop at j unchanged. -/
theorem drop_set_lower {l : List Nat} {i j : Nat} (h : i < j) (x : Nat) :
    (l.set i x).drop j = l.drop j := by
  rw [List.drop_set, if_pos h]

/-- Dropping one more element preserves an equality of drops. -/
theorem drop_eq_succ_of_drop_eq {l1 l2 : List Nat} {k : Nat}
    (h : l1.drop k = l2.drop k) : l1.drop (k + 1) = l2.drop (k + 1) := by
  have h1 : (l1.drop k).drop 1 = (l2.drop k).drop 1 := by rw [h]
  simpa [List.drop_drop, Nat.add_comm] using h1

/-- Writing the same value at slot j of two lists that agree in length and
from slot j+1 on makes them agree from slot j on. -/
theorem drop_set_eq_of_agree {l1 l2 : List Nat} {j : Nat} {x : Nat}
    (hlen : l1.length = l2.length) (h : l1.drop (j + 1) = l2.drop (j + 1)) :
    (l1.set j x).drop j = (l2.set j x).drop j := by
  by_cases hj : j < l1.length
  · have hj2 : j < l2.length := hlen ▸ hj
    have e1 : (l1.set j x).drop j = x :: l1.drop (j + 1) := by
      have hjs : j < (l1.set j x).length := by simpa using hj
      rw [List.drop_eq_getElem_cons hjs]
      simp [List.drop_set]
    have e2 : (l2.set j x).drop j = x :: l2.drop (j + 1) := by
      have hjs : j < (l2.set j x).length := by simpa using hj2
      rw [List.drop_eq_getElem_cons hjs]
      simp [List.drop_set]
    rw [e1, e2, h]
  · have hj1 : l1.length ≤ j := Nat.le_of_not_lt hj
    have hj2 : l2.length ≤ j := hlen ▸ hj1
    rw [List.set_eq_of_length_le hj1, List.set_eq_of_length_le hj2,
      List.drop_eq_nil_of_le hj1, List.drop_eq_nil_of_le hj2]

/-- The move loop preserves the stack length and every stack slot from
index k on, provided each child call does. -/
theorem searchMoves_stack_invariant {B M : Type}
    (child : SState → B → SState × (Option M × Int)) (play : B → M → B)
    (b : B) (k : Nat)
    (hlen : ∀ st c, ((child st c).1).stack.length = st.stack.length)
    (hdrop : ∀ st c, ((child st c).1).stack.drop k = st.stack.drop k) :
    ∀ (l : List M) (st : SState) (acc : Option M × Int),
      ((searchMoves child play b l st acc).1).stack.length = st.stack.length ∧
      ((searchMoves child play b l st acc).1).stack.drop k = st.stack.drop k := by
  intro l
  induction l with
  | nil => intro st acc; exact ⟨rfl, rfl⟩
  | cons mv rest ih =>
    intro st acc
    rw [searchMoves_cons]
    constructor
    · rw [(ih _ _).1, hlen]
    · rw [(ih _ _).2, hdrop]

/-- negamax at depth d preserves the stack length and every stack slot of
remaining depth greater than d: it only writes slots at its own and
smaller remaining depths. -/
theorem negamax_stack_invariant {B M : Type} (api : ChessApi B M)
    (stop : Bool) (ec : EndCondition) :
    ∀ (d : Nat) (st : SState) (b : B),
      ((negamax api stop ec d st b).1).stack.length = st.stack.length ∧
      ((negamax api stop ec d st b).1).stack.drop (d + 1) = st.stack.drop (d + 1) := by
  intro d
  induction d with
  | zero =>
    intro st b
    rw [negamax_zero]
    by_cases hstop : stop = true
    · rw [if_pos hstop]; exact ⟨rfl, rfl⟩
    · rw [if_neg hstop]
      exact ⟨by simp, drop_set_lower (Nat.zero_lt_one) _⟩
  | succ d ih =>
    intro st b
    rw [negamax_succ]
    by_cases hstop : stop = true
    · rw [if_pos hstop]; exact ⟨rfl, rfl⟩
    · rw [if_neg hstop]
      have hset : ∀ x : Nat,
          (st.stack.set (d + 1) x).drop (d + 1 + 1) = st.stack.drop (d + 1 + 1) :=
        fun x => drop_set_lower (Nat.lt_succ_self _) x
      by_cases hterm : api.status b ≠ GameStatus.Ongoing
      · rw [if_pos hterm]
        exact ⟨by simp, hset _⟩
      · rw [if_neg hterm]
        by_cases hrep : ((st.stack.set (d + 1) (api.hash b)).drop (d + 2)).any
            (fun x => x == api.hash b) = true
        · rw [if_pos hrep]
          exact ⟨by simp, hset _⟩
        · rw [if_neg hrep]
          have hmoves := searchMoves_stack_invariant
            (negamax api stop ec d) api.play b (d + 1)
            (fun st2 c => (ih st2 c).1) (fun st2 c => (ih st2 c).2)
            (api.genMoves b)
            { st with stack := st.stack.set (d + 1) (api.hash b) }
            (none, -1000)
          refine ⟨by rw [hmoves.1]; simp, ?_⟩
          calc ((searchMoves (negamax api stop ec d) api.play b (api.genMoves b)
                  { st with stack := st.stack.set (d + 1) (api.hash b) }
                  (none, -1000)).1).stack.drop (d + 1 + 1)
              = (st.stack.set (d + 1) (api.hash b)).drop (d + 1 + 1) :=
                drop_eq_succ_of_drop_eq hmoves.2
            _ = st.stack.drop (d + 1 + 1) := hset _

/-- The move and score produced by the move loop depend on the entry state
only through the stack length and the slots from index k on, provided each
child call preserves those and satisfies the same congruence. -/
theorem searchMoves_result_congr {B M : Type}
    (child : SState → B → SState × (Option M × Int)) (play : B → M → B)
    (b : B) (k : Nat)
    (hlen : ∀ st c, ((child st c).1).stack.length = st.stack.length)
    (hdrop : ∀ st c, ((child st c).1).stack.drop k = st.stack.drop k)
    (hcongr : ∀ st st2 c, st.stack.length = st2.stack.length →
      st.stack.drop k = st2.stack.drop k → (child st c).2 = (child st2 c).2) :
    ∀ (l : List M) (st st2 : SState) (acc : Option M × Int),
      st.stack.length = st2.stack.length →
      st.stack.drop k = st2.stack.drop k →
      (searchMoves child play b l st acc).2 =
        (searchMoves child play b l st2 acc).2 := by
  intro l
  induction l with
  | nil => intro st st2 acc h1 h2; rfl
  | cons mv rest ih =>
    intro st st2 acc h1 h2
    rw [searchMoves_cons, searchMoves_cons]
    have hc : (child { st with nodes := st.nodes + 1 } (play b mv)).2 =
        (child { st2 with nodes := st2.nodes + 1 } (play b mv)).2 :=
      hcongr _ _ _ h1 h2
    rw [hc]
    exact ih _ _ _ (by rw [hlen, hlen]; exact h1) (by rw [hdrop, hdrop]; exact h2)

/-- The move and score returned by negamax at depth d depend on the entry
state only through the stack length and the ancestor slots (index d+1 on):
not on the node counter, and not on stale slots left at smaller depths by
earlier siblings. -/
theorem negamax_result_congr {B M : Type} (api : ChessApi B M)
    (stop : Bool) (ec : EndCondition) :
    ∀ (d : Nat) (st st2 : SState) (b : B),
      st.stack.length = st2.stack.length →
      st.stack.drop (d + 1) = st2.stack.drop (d + 1) →
      (negamax api stop ec d st b).2 = (negamax api stop ec d st2 b).2 := by
  intro d
  induction d with
  | zero =>
    intro st st2 b h1 h2
    rw [negamax_zero, negamax_zero]
    by_cases hstop : stop = true
    · rw [if_pos hstop, if_pos hstop]
    · rw [if_neg hstop, if_neg hstop]
  | succ d ih =>
    intro st st2 b h1 h2
    rw [negamax_succ, negamax_succ]
    by_cases hstop : stop = true
    · rw [if_pos hstop, if_pos hstop]
    · rw [if_neg hstop, if_neg hstop]
      by_cases hterm : api.status b ≠ GameStatus.Ongoing
      · rw [if_pos hterm, if_pos hterm]
      · rw [if_neg hterm, if_neg hterm]
        have hd2 : st.stack.drop (d + 2) = st2.stack.drop (d + 2) := h2
        have hcond : ((st.stack.set (d + 1) (api.hash b)).drop (d + 2)).any
            (fun x => x == api.hash b) =
            ((st2.stack.set (d + 1) (api.hash b)).drop (d + 2)).any
            (fun x => x == api.hash b) := by
          rw [drop_set_lower (Nat.lt_succ_self _), drop_set_lower (Nat.lt_succ_self _), hd2]
        by_cases hrep : ((st.stack.set (d + 1) (api.hash b)).drop (d + 2)).any
            (fun x => x == api.hash b) = true
        · rw [if_pos hrep, if_pos (hcond ▸ hrep)]
        · rw [if_neg hrep, if_neg (hcond ▸ hrep)]
          exact searchMoves_result_congr (negamax api stop ec d) api.play b (d + 1)
            (fun st3 c => (negamax_stack_invariant api stop ec d st3 c).1)
            (fun st3 c => (negamax_stack_invariant api stop ec d st3 c).2)
            (fun st3 st4 c ha hb => ih st3 st4 c ha hb)
            (api.genMoves b) _ _ (none, -1000)
            (by simpa using h1)
            (drop_set_eq_of_agree h1 hd2)

/-- Pointwise equal child functions give equal move loops. -/
theorem searchMoves_child_congr {B M : Type}
    (child child2 : SState → B → SState × (Option M × Int))
    (play : B → M → B) (b : B)
    (h : ∀ st c, child st c = child2 st c) :
    ∀ (l : List M) (st : SState) (acc : Option M × Int),
      searchMoves child play b l st acc = searchMoves child2 play b l st acc := by
  intro l
  induction l with
  | nil => intro st acc; rfl
  | cons mv rest ih =>
    intro st acc
    rw [searchMoves_cons, searchMoves_cons, h]
    exact ih _ _

/-- negamax never reads its end-condition argument: its only use in the
source is commented out, so any two end conditions give identical runs. -/
theorem negamax_ec_irrelevant {B M : Type} (api : ChessApi B M) (stop : Bool) :
    ∀ (ec ec2 : EndCondition) (d : Nat) (st : SState) (b : B),
      negamax api stop ec d st b = negamax api stop ec2 d st b := by
  intro ec ec2 d
  induction d with
  | zero => intro st b; rfl
  | succ d ih =>
    intro st b
    rw [negamax_succ, negamax_succ]
    by_cases hstop : stop = true
    · rw [if_pos hstop, if_pos hstop]
    · rw [if_neg hstop, if_neg hstop]
      by_cases hterm : api.status b ≠ GameStatus.Ongoing
      · rw [if_pos hterm, if_pos hterm]
      · rw [if_neg hterm, if_neg hterm]
        by_cases hrep : ((st.stack.set (d + 1) (api.hash b)).drop (d + 2)).any
            (fun x => x == api.hash b) = true
        · rw [if_pos hrep, if_pos hrep]
        · rw [if_neg hrep, if_neg hrep]
          rw [searchMoves_child_congr (negamax api stop ec d)
            (negamax api stop ec2 d) api.play b (fun st2 c => ih st2 c)]

/-- If no score exceeds the accumulator, selection returns it unchanged. -/
theorem selectBest_of_le {M : Type} (f : M → Int) :
    ∀ (l : List M) (acc : Option M × Int),
      (∀ mv ∈ l, f mv ≤ acc.2) → selectBest f l acc = acc := by
  intro l
  induction l with
  | nil => intro acc h; rfl
  | cons mv rest ih =>
    intro acc h
    have hmv : ¬ f mv > acc.2 := not_lt_of_ge (h mv (List.mem_cons_self mv rest))
    simp only [selectBest, if_neg hmv]
    exact ih acc (fun x hx => h x (List.mem_cons_of_mem mv hx))

/-- If some score strictly exceeds the accumulator, selection returns the
first move attaining the overall maximum: every earlier move scores
strictly below it and every later move at most it. -/
theorem selectBest_first_max {M : Type} (f : M → Int) :
    ∀ (l : List M) (acc : Option M × Int) (mv0 : M),
      mv0 ∈ l → acc.2 < f mv0 →
      ∃ pre m post, l = pre ++ m :: post ∧
        selectBest f l acc = (some m, f m) ∧ acc.2 < f m ∧
        (∀ x ∈ pre, f x < f m) ∧ (∀ x ∈ post, f x ≤ f m) := by
  intro l
  induction l with
  | nil => intro acc mv0 h0; exact absurd h0 (List.not_mem_nil mv0)
  | cons a rest ih =>
    intro acc mv0 h0 hgt
    by_cases ha : f a > acc.2
    · simp only [selectBest, if_pos ha]
      by_cases hall : ∀ x ∈ rest, f x ≤ f a
      · refine ⟨[], a, rest, by simp, ?_, ha, by simp, hall⟩
        rw [selectBest_of_le f rest (some a, f a) hall]
      · push_neg at hall
        obtain ⟨x, hxmem, hxgt⟩ := hall
        obtain ⟨pre, m, post, hsplit, hsel, hacc, hpre, hpost⟩ :=
          ih (some a, f a) x hxmem hxgt
        exact ⟨a :: pre, m, post, by rw [hsplit]; rfl, hsel,
          lt_trans ha hacc, by
            intro y hy
            rcases List.mem_cons.mp hy with hya | hyp
            · rw [hya]; exact hacc
            · exact hpre y hyp, hpost⟩
    · simp only [selectBest, if_neg ha]
      have h0r : mv0 ∈ rest := by
        rcases List.mem_cons.mp h0 with h0a | h0r
        · exfalso; rw [h0a] at hgt; exact ha hgt
        · exact h0r
      obtain ⟨pre, m, post, hsplit, hsel, hacc, hpre, hpost⟩ :=
        ih acc mv0 h0r hgt
      exact ⟨a :: pre, m, post, by rw [hsplit]; rfl, hsel, hacc, by
        intro y hy
        rcases List.mem_cons.mp hy with hya | hyp
        · rw [hya]; exact lt_of_le_of_lt (not_lt.mp ha) hacc
        · exact hpre y hyp, hpost⟩

/-- The move loop computes exactly the specification-side selection over
the per-move score function obtained by running each child from the state
the parent wrote (sibling runs influence neither the scores nor the
selection). -/
theorem searchMoves_eq_selectBest {B M : Type}
    (child : SState → B → SState × (Option M × Int)) (play : B → M → B)
    (b : B) (k : Nat) (st1 : SState)
    (hlen : ∀ st c, ((child st c).1).stack.length = st.stack.length)
    (hdrop : ∀ st c, ((child st c).1).stack.drop k = st.stack.drop k)
    (hcongr : ∀ st st2 c, st.stack.length = st2.stack.length →
      st.stack.drop k = st2.stack.drop k → (child st c).2 = (child st2 c).2) :
    ∀ (l : List M) (st : SState) (acc : Option M × Int),
      st.stack.length = st1.stack.length →
      st.stack.drop k = st1.stack.drop k →
      (searchMoves child play b l st acc).2 =
        selectBest (fun mv => -(child st1 (play b mv)).2.2) l acc := by
  intro l
  induction l with
  | nil => intro st acc h1 h2; rfl
  | cons mv rest ih =>
    intro st acc h1 h2
    rw [searchMoves_cons]
    have hc : (child { st with nodes := st.nodes + 1 } (play b mv)).2 =
        (child st1 (play b mv)).2 :=
      hcongr _ _ _ h1 h2
    simp only [selectBest, hc]
    exact ih _ _ (by rw [hlen]; exact h1) (by rw [hdrop]; exact h2)

/-- With the cancellation flag set, negamax returns at once: no move,
score 0, state untouched (no node visited, no stack slot written). -/
theorem negamax_stop {B M : Type} (api : ChessApi B M) (ec : EndCondition)
    (d : Nat) (st : SState) (b : B) :
    negamax api true ec d st b = (st, (none, 0)) := by
  cases d with
  | zero => rw [negamax_zero, if_pos rfl]
  | succ d => rw [negamax_succ, if_pos rfl]

/-- With the cancellation flag set and a resolvable budget, find_best_move
reaches the unwrap of an absent move: the modelled panic. -/
theorem find_best_move_stop {B M : Type} (api : ChessApi B M) (info : GoInfo)
    (side : Color) (b : B)
    (h : (resolveEndCondition info side).isSome = true) :
    find_best_move api true info side b = FindResult.unwrapFail 0 0 := by
  unfold find_best_move
  cases hres : resolveEndCondition info side with
  | none => rw [hres] at h; simp at h
  | some ec =>
    simp only [negamax_stop]
    rfl

/-- Leaf scoring written out as the specification states it. -/
theorem leafScore_spec {B M : Type} (api : ChessApi B M) (b : B) :
    leafScore api b =
      match api.status b with
      | GameStatus.Drawn => (none, 0)
      | GameStatus.Won =>
          if api.sideToMove b = Color.White then (none, (1000 : Int))
          else (none, -1000)
      | GameStatus.Ongoing =>
          (none, ((api.colorLen b Color.White : Int) -
            (api.colorLen b Color.Black : Int)) *
            (if api.sideToMove b = Color.White then 1 else -1)) := by
  cases hs : api.status b <;> simp [leafScore, evaluate, hs]

/-- C1 counterexample: in cexApi from position 0 (ongoing, no ancestry
repetition, cancellation clear, depth 1) there is exactly one legal move,
whose child scores +1000, so its negated score -1000 is trivially the
strictly greatest one; yet negamax returns no move at all (the claimed
first-seen maximal move would be move 0), because -1000 does not strictly
exceed the -1000 sentinel the loop starts from. -/
theorem C1_counterexample :
    cexApi.genMoves 0 = [0] ∧
    (negamax cexApi false EndCondition.Infinite 0
      { initState with stack := initState.stack.set 1 (cexApi.hash 0) }
      (cexApi.play 0 0)).2.2 = 1000 ∧
    (negamax cexApi false EndCondition.Infinite 1 initState 0).2 = (none, -1000) :=
  ⟨rfl, by decide, by decide⟩

/-- C1 (amended): for every ongoing, non-terminal position with positive
remaining depth, stop flag clear and no ancestry repetition, negamax
enumerates all legal moves with no pruning; each move is applied to a
clone and searched at depth d with the negated child score, and the
returned pair is the first-seen strict maximum of those negated scores
over the sentinel -1000: if some negated score exceeds -1000 the first
move attaining the maximum is returned with the maximum, and if every
negated score is at most -1000 the result is (none, -1000) even though
legal moves exist. -/
theorem C1_negamax_full_width_selection {B M : Type} (api : ChessApi B M)
    (ec : EndCondition) (d : Nat) (st : SState) (b : B)
    (hOngoing : api.status b = GameStatus.Ongoing)
    (hNoRep : (st.stack.drop (d + 2)).any (fun x => x == api.hash b) = false)
    (f : M → Int)
    (hf : f = fun mv =>
      -(negamax api false ec d
          { st with stack := st.stack.set (d + 1) (api.hash b) }
          (api.play b mv)).2.2) :
    (negamax api false ec (d + 1) st b).2 =
        selectBest f (api.genMoves b) (none, -1000)
    ∧ ((∀ mv ∈ api.genMoves b, f mv ≤ -1000) →
        (negamax api false ec (d + 1) st b).2 = (none, -1000))
    ∧ (∀ mv0 ∈ api.genMoves b, -1000 < f mv0 →
        ∃ pre m post, api.genMoves b = pre ++ m :: post ∧
          (negamax api false ec (d + 1) st b).2 = (some m, f m) ∧
          (∀ x ∈ pre, f x < f m) ∧ (∀ x ∈ post, f x ≤ f m)) := by
  subst hf
  have hrep2 : ((st.stack.set (d + 1) (api.hash b)).drop (d + 2)).any
      (fun x => x == api.hash b) = false := by
    rw [drop_set_lower (Nat.lt_succ_self _)]; exact hNoRep
  have hmain : (negamax api false ec (d + 1) st b).2 =
      selectBest (fun mv => -(negamax api false ec d
        { st with stack := st.stack.set (d + 1) (api.hash b) }
        (api.play b mv)).2.2) (api.genMoves b) (none, -1000) := by
    rw [negamax_succ, if_neg (by decide), if_neg (not_not_intro hOngoing),
      if_neg (by rw [hrep2]; exact Bool.false_ne_true)]
    exact searchMoves_eq_selectBest (negamax api false ec d) api.play b (d + 1)
      { st with stack := st.stack.set (d + 1) (api.hash b) }
      (fun st2 c => (negamax_stack_invariant api false ec d st2 c).1)
      (fun st2 c => (negamax_stack_invariant api false ec d st2 c).2)
      (fun st2 st3 c ha hb => negamax_result_congr api false ec d st2 st3 c ha hb)
      (api.genMoves b) _ (none, -1000) rfl rfl
  refine ⟨hmain, ?_, ?_⟩
  · intro hall
    rw [hmain]
    exact selectBest_of_le _ _ _ hall
  · intro mv0 hmem hgt
    obtain ⟨pre, m, post, hsplit, hsel, _, hpre, hpost⟩ :=
      selectBest_first_max
        (fun mv => -(negamax api false ec d
          { st with stack := st.stack.set (d + 1) (api.hash b) }
          (api.play b mv)).2.2)
        (api.genMoves b) (none, -1000) mv0 hmem hgt
    exact ⟨pre, m, post, hsplit, by rw [hmain]; exact hsel, hpre, hpost⟩

/-- C1 witness: in toyApi from position 0 at depth 1 the hypotheses hold,
and the selection characterization yields the first move (to the position
won with Black to move, negated score 1000). -/
theorem C1_witness :
    toyApi.status 0 = GameStatus.Ongoing ∧
    (initState.stack.drop 2).any (fun x => x == toyApi.hash 0) = false ∧
    (negamax toyApi false EndCondition.Infinite 1 initState 0).2 = (some 0, 1000) := by
  refine ⟨rfl, by decide, ?_⟩
  have h := C1_negamax_full_width_selection toyApi EndCondition.Infinite 0
    initState 0 rfl (by decide) _ rfl
  rw [h.1]
  decide

/-- C2: at exhausted depth or on a terminal position, negamax scores the
leaf exactly as the specification states: 0 when drawn, +1000 when won
with White to move, -1000 when won with Black to move, and otherwise the
raw occupancy difference times the side-to-move sign. -/
theorem C2_leaf_and_exhausted_scoring {B M : Type} (api : ChessApi B M)
    (ec : EndCondition) (d : Nat) (st : SState) (b : B)
    (h : d = 0 ∨ api.status b ≠ GameStatus.Ongoing) :
    (negamax api false ec d st b).2 =
      match api.status b with
      | GameStatus.Drawn => (none, 0)
      | GameStatus.Won =>
          if api.sideToMove b = Color.White then (none, (1000 : Int))
          else (none, -1000)
      | GameStatus.Ongoing =>
          (none, ((api.colorLen b Color.White : Int) -
            (api.colorLen b Color.Black : Int)) *
            (if api.sideToMove b = Color.White then 1 else -1)) := by
  rw [← leafScore_spec]
  cases d with
  | zero => rw [negamax_zero, if_neg (by decide)]
  | succ d =>
    rcases h with h0 | hterm
    · exact absurd h0 (Nat.succ_ne_zero d)
    · rw [negamax_succ, if_neg (by decide), if_pos hterm]

/-- C2 witness: position 4 of toyApi is ongoing with White to move, four
white occupied squares and none black, so depth 0 scores (4 - 0) * 1. -/
theorem C2_witness :
    ((0 : Nat) = 0 ∨ toyApi.status 4 ≠ GameStatus.Ongoing) ∧
    (negamax toyApi false EndCondition.Infinite 0 initState 4).2 = (none, 4) := by
  refine ⟨Or.inl rfl, ?_⟩
  have h := C2_leaf_and_exhausted_scoring toyApi EndCondition.Infinite 0
    initState 4 (Or.inl rfl)
  rw [h]
  decide

/-- C3: on an ongoing position with positive remaining depth whose hash
already sits in an ancestry slot of strictly greater remaining depth,
negamax returns (none, 0) immediately: the returned state shows only the
slot write for the current depth and an unchanged node counter, so no
move was enumerated, whatever the material balance. -/
theorem C3_repetition_draw {B M : Type} (api : ChessApi B M) (ec : EndCondition)
    (d : Nat) (st : SState) (b : B)
    (hOngoing : api.status b = GameStatus.Ongoing)
    (hRep : (st.stack.drop (d + 2)).any (fun x => x == api.hash b) = true) :
    negamax api false ec (d + 1) st b =
      ({ st with stack := st.stack.set (d + 1) (api.hash b) }, (none, 0)) := by
  rw [negamax_succ, if_neg (by decide), if_neg (not_not_intro hOngoing),
    if_pos (by rw [drop_set_lower (Nat.lt_succ_self _)]; exact hRep)]

/-- C3 witness: from toy position 0 (ongoing, two legal moves) with its
hash planted at ancestor slot 2, the depth-1 search returns (none, 0)
without visiting a node. -/
theorem C3_witness :
    toyApi.status 0 = GameStatus.Ongoing ∧
    (repState.stack.drop 2).any (fun x => x == toyApi.hash 0) = true ∧
    negamax toyApi false EndCondition.Infinite 1 repState 0 =
      ({ repState with stack := repState.stack.set 1 (toyApi.hash 0) }, (none, 0)) :=
  ⟨rfl, by decide,
    C3_repetition_draw toyApi EndCondition.Infinite 0 repState 0 rfl (by decide)⟩

/-- C6: whenever the cancellation flag is already set, negamax returns at
once with no move and score 0, leaving the state untouched (no node
counted, no child entered); consequently a search started with the flag
set reaches find_best_move's unwrap of an absent move with zero nodes. -/
theorem C6_cancellation_immediate {B M : Type} (api : ChessApi B M) :
    (∀ (ec : EndCondition) (d : Nat) (st : SState) (b : B),
      negamax api true ec d st b = (st, (none, 0))) ∧
    (∀ (info : GoInfo) (side : Color) (b : B),
      (resolveEndCondition info side).isSome = true →
      find_best_move api true info side b = FindResult.unwrapFail 0 0) :=
  ⟨fun ec d st b => negamax_stop api ec d st b,
   fun info side b h => find_best_move_stop api info side b h⟩

/-- C6 witness: with the flag set, an infinite-budget search on toyApi
returns the modelled no-move unwrap with score 0 and zero nodes. -/
theorem C6_witness :
    (resolveEndCondition { emptyGo with infinite := true } Color.White).isSome = true ∧
    find_best_move toyApi true { emptyGo with infinite := true } Color.White 0 =
      FindResult.unwrapFail 0 0 :=
  ⟨rfl, (C6_cancellation_immediate toyApi).2 _ Color.White 0 rfl⟩

/-- C7: whenever a termination policy resolves, find_best_move performs
exactly the fixed search at the constant depth 3, regardless of which
policy resolved (depth, nodes, movetime, clocks or infinite) and of any
parameter values: the recursion never consults the resolved policy, only
the cancellation flag. -/
theorem C7_constant_search_depth {B M : Type} (api : ChessApi B M)
    (stop : Bool) (info : GoInfo) (side : Color) (b : B)
    (h : (resolveEndCondition info side).isSome = true) :
    find_best_move api stop info side b = searchAtDepth api stop 3 b := by
  unfold find_best_move searchAtDepth
  cases hres : resolveEndCondition info side with
  | none => rw [hres] at h; simp at h
  | some ec =>
    simp only [negamax_ec_irrelevant api stop ec EndCondition.Infinite]

/-- C7 witness: a depth-5 budget and an infinite budget run the same
fixed-depth-3 search on the toy instance. -/
theorem C7_witness :
    (resolveEndCondition { emptyGo with depth := some 5 } Color.White).isSome = true ∧
    find_best_move toyApi false { emptyGo with depth := some 5 } Color.White 0 =
      searchAtDepth toyApi false 3 0 :=
  ⟨rfl, C7_constant_search_depth toyApi false { emptyGo with depth := some 5 }
    Color.White 0 rfl⟩

/-- C10: if the cancellation flag is already set when the worker handles a
Go command whose budget resolves, the top-level negamax produces no move,
find_best_move ends in the unwrap of an absent move (the modelled panic
that aborts the worker thread), never in an ok result, and the worker
never reaches its bestmove output line. -/
theorem C10_preset_stop_aborts_worker {B M : Type} (api : ChessApi B M)
    (info : GoInfo) (side : Color) (b : B)
    (h : (resolveEndCondition info side).isSome = true) :
    find_best_move api true info side b = FindResult.unwrapFail 0 0 ∧
    bestmoveEmitted (find_best_move api true info side b) = false ∧
    ∀ (m : M) (s : Int) (n : Nat),
      find_best_move api true info side b ≠ FindResult.ok m s n := by
  have hmain := find_best_move_stop api info side b h
  refine ⟨hmain, by rw [hmain]; rfl, ?_⟩
  intro m s n hok
  rw [hmain] at hok
  exact FindResult.noConfusion hok

/-- C10 witness: with the flag set and an infinite budget, the toy search
aborts at the unwrap and emits no bestmove. -/
theorem C10_witness :
    (resolveEndCondition { emptyGo with infinite := true } Color.Black).isSome = true ∧
    find_best_move toyApi true { emptyGo with infinite := true } Color.Black 0 =
      FindResult.unwrapFail 0 0 ∧
    bestmoveEmitted (find_best_move toyApi true { emptyGo with infinite := true }
      Color.Black 0) = false :=
  ⟨rfl,
   (C10_preset_stop_aborts_worker toyApi { emptyGo with infinite := true }
     Color.Black 0 rfl).1,
   (C10_preset_stop_aborts_worker toyApi { emptyGo with infinite := true }
     Color.Black 0 rfl).2.1⟩

/-- C4: the budget resolver selects exactly one policy in strict priority
order: infinite, then node ceiling, then depth ceiling (value as-u8
truncated), then movetime deadline, then the two-clock heuristic, else the
unrecoverable configuration error; in particular a given depth beats any
clock values. -/
theorem C4_budget_priority (info : GoInfo) (side : Color) :
    (info.infinite = true →
      resolveEndCondition info side = some EndCondition.Infinite)
  ∧ (info.infinite = false → ∀ n, info.nodes = some n →
      resolveEndCondition info side = some (EndCondition.Nodes n))
  ∧ (info.infinite = false → info.nodes = none → ∀ d, info.depth = some d →
      resolveEndCondition info side = some (EndCondition.Depth (d % 256)))
  ∧ (info.infinite = false → info.nodes = none → info.depth = none →
      ∀ t, info.movetime = some t →
      resolveEndCondition info side = some (EndCondition.Time t))
  ∧ (info.infinite = false → info.nodes = none → info.depth = none →
      info.movetime = none → ∀ bt wt, info.btime = some bt →
      info.wtime = some wt →
      ∃ ms, resolveEndCondition info side = some (EndCondition.Time ms))
  ∧ (info.infinite = false → info.nodes = none → info.depth = none →
      info.movetime = none → (info.btime = none ∨ info.wtime = none) →
      resolveEndCondition info side = none) := by
  refine ⟨?_, ?_, ?_, ?_, ?_, ?_⟩
  · intro h1
    simp [resolveEndCondition, h1]
  · intro h1 n h2
    simp [resolveEndCondition, h1, h2]
  · intro h1 h2 d h3
    simp [resolveEndCondition, h1, h2, h3]
  · intro h1 h2 h3 t h4
    simp [resolveEndCondition, h1, h2, h3, h4]
  · intro h1 h2 h3 h4 bt wt h5 h6
    cases side with
    | White =>
      exact ⟨if bt < wt then (wt - bt) * 3 % 4294967296 / 4 + wt / 10 else wt / 10,
        by simp [resolveEndCondition, h1, h2, h3, h4, h5, h6]⟩
    | Black =>
      exact ⟨if wt < bt then (bt - wt) * 3 % 4294967296 / 4 + bt / 10 else bt / 10,
        by simp [resolveEndCondition, h1, h2, h3, h4, h5, h6]⟩
  · intro h1 h2 h3 h4 h5
    rcases h5 with hb | hw
    · rcases hwt : info.wtime with _ | w <;>
        simp [resolveEndCondition, h1, h2, h3, h4, hb, hwt]
    · rcases hbt : info.btime with _ | v <;>
        simp [resolveEndCondition, h1, h2, h3, h4, hw, hbt]

/-- C4 witness: with both a depth and both clocks present, the resolver
picks the depth ceiling, not a clock deadline. -/
theorem C4_witness :
    resolveEndCondition
      { emptyGo with depth := some 5, wtime := some 1000, btime := some 2000 }
      Color.White = some (EndCondition.Depth (5 % 256)) :=
  (C4_budget_priority
    { emptyGo with depth := some 5, wtime := some 1000, btime := some 2000 }
    Color.White).2.2.1 rfl rfl 5 rfl

/-- C5 counterexample: with mine = 4294967295 ms and theirs = 0 ms the
code allocates 1503238552 ms, because the u32 product (mine - theirs) * 3
wraps modulo 2^32 before the division, while the claimed formula
((mine - theirs) * 3) / 4 + mine / 10 evaluates to 3650722200. -/
theorem C5_counterexample :
    resolveEndCondition bigClkGo Color.White = some (EndCondition.Time 1503238552) ∧
    (4294967295 - 0) * 3 / 4 + 4294967295 / 10 = 3650722200 ∧
    (1503238552 : Nat) ≠ 3650722200 := by
  refine ⟨by decide, by decide, by decide⟩

/-- C5 (amended): for clock values mine (side to move) and theirs
(opponent), the clock-based allocation equals
((mine - theirs) * 3 mod 2^32) / 4 + mine / 10 ms when theirs < mine and
mine / 10 ms otherwise, the multiplication wrapping in 32-bit unsigned
arithmetic (increments and moves-to-go ignored); the wrap is invisible for
the in-range examples, so mine=10000, theirs=4000 still allocates 5500 ms
and mine=4000, theirs=10000 still allocates 400 ms. -/
theorem C5_clock_heuristic (info : GoInfo) (side : Color)
    (h1 : info.infinite = false) (h2 : info.nodes = none)
    (h3 : info.depth = none) (h4 : info.movetime = none)
    (wt bt mine theirs : Nat)
    (h5 : info.wtime = some wt) (h6 : info.btime = some bt)
    (hmine : mine = match side with | Color.White => wt | Color.Black => bt)
    (htheirs : theirs = match side with | Color.White => bt | Color.Black => wt) :
    resolveEndCondition info side = some (EndCondition.Time
      (if theirs < mine then (mine - theirs) * 3 % 4294967296 / 4 + mine / 10
       else mine / 10)) := by
  subst hmine htheirs
  cases side <;> simp [resolveEndCondition, h1, h2, h3, h4, h5, h6]

/-- C5 witness: the two example allocations of the specification, one per
side to move. -/
theorem C5_witness :
    resolveEndCondition clkGo Color.White = some (EndCondition.Time 5500) ∧
    resolveEndCondition clkGo Color.Black = some (EndCondition.Time 400) := by
  constructor
  · have h := C5_clock_heuristic clkGo Color.White rfl rfl rfl rfl
      10000 4000 10000 4000 rfl rfl rfl rfl
    rw [h]; decide
  · have h := C5_clock_heuristic clkGo Color.Black rfl rfl rfl rfl
      10000 4000 4000 10000 rfl rfl rfl rfl
    rw [h]; decide

/-- C8 counterexample: a parsed depth of 300 is stored as 44 (the as-u8
cast truncates modulo 256), not as the claimed cap of 300 into the byte
range, which would be 255. -/
theorem C8_counterexample :
    resolveEndCondition depth300Go Color.White = some (EndCondition.Depth 44) ∧
    min 300 255 = 255 ∧ (44 : Nat) ≠ 255 := by
  refine ⟨by decide, by decide, by decide⟩

/-- C8 (amended): when a depth is given and neither the infinite flag nor
a node count takes priority, the resolver stores the given depth reduced
modulo 256 (the truncating as-u8 cast), which agrees with the given depth
exactly when it is at most 255. -/
theorem C8_depth_truncation (info : GoInfo) (side : Color) (d : Nat)
    (h1 : info.infinite = false) (h2 : info.nodes = none)
    (h3 : info.depth = some d) :
    resolveEndCondition info side = some (EndCondition.Depth (d % 256)) ∧
    (d ≤ 255 → resolveEndCondition info side = some (EndCondition.Depth d)) := by
  have hmain : resolveEndCondition info side = some (EndCondition.Depth (d % 256)) := by
    simp [resolveEndCondition, h1, h2, h3]
  refine ⟨hmain, ?_⟩
  intro hle
  rw [hmain, Nat.mod_eq_of_lt (Nat.lt_succ_of_le hle)]

/-- C8 witness: depth 7 is stored unchanged. -/
theorem C8_witness :
    resolveEndCondition { emptyGo with depth := some 7 } Color.Black =
      some (EndCondition.Depth 7) :=
  (C8_depth_truncation { emptyGo with depth := some 7 } Color.Black 7
    rfl rfl rfl).2 (by decide)

/-- C9: for every tokenized go command and every recognized keyword, an
absent keyword yields none; a present keyword whose next token parses as a
u32 yields exactly that integer, and the whole GoInfo construction places
it in the keyword's field; a present keyword that is the last token, or is
followed by a token that does not parse as a u32, aborts the field lookup,
and that abort aborts the whole construction (the modelled panic). -/
theorem C9_go_argument_parsing (split : List String) (kw : String)
    (hkw : kw ∈ recognizedKeywords) :
    (kw ∉ split → findArg split kw = Except.ok none)
  ∧ (∀ t, kw ∈ split →
      split[split.findIdx (fun s => s == kw) + 1]? = some t →
      ((∀ n, parseU32 t = some n → findArg split kw = Except.ok (some n))
       ∧ (parseU32 t = none → findArg split kw = Except.error ())))
  ∧ (kw ∈ split → split[split.findIdx (fun s => s == kw) + 1]? = none →
      findArg split kw = Except.error ())
  ∧ (∀ g, GoInfo.new split = Except.ok g →
      findArg split kw = Except.ok (GoInfo.field g kw))
  ∧ (findArg split kw = Except.error () →
      GoInfo.new split = Except.error ()) := by
  have hok : ∀ g, GoInfo.new split = Except.ok g →
      findArg split kw = Except.ok (GoInfo.field g kw) := by
    intro g hg
    unfold GoInfo.new at hg
    split at hg
    · exact Except.noConfusion hg
    rename_i v1 h1
    split at hg
    · exact Except.noConfusion hg
    rename_i v2 h2
    split at hg
    · exact Except.noConfusion hg
    rename_i v3 h3
    split at hg
    · exact Except.noConfusion hg
    rename_i v4 h4
    split at hg
    · exact Except.noConfusion hg
    rename_i v5 h5
    split at hg
    · exact Except.noConfusion hg
    rename_i v6 h6
    split at hg
    · exact Except.noConfusion hg
    rename_i v7 h7
    split at hg
    · exact Except.noConfusion hg
    rename_i v8 h8
    split at hg
    · exact Except.noConfusion hg
    rename_i v9 h9
    have hg2 : GoInfo.mk v1 v2 v3 v4 v5 v6 v7 v8 v9
        (decide ("infinite" ∈ split)) = g := by
      injection hg
    subst hg2
    fin_cases hkw <;> simp_all [GoInfo.field]
  have herr : findArg split kw = Except.error () →
      GoInfo.new split = Except.error () := by
    intro he
    cases hg : GoInfo.new split with
    | error u => rfl
    | ok g =>
      have h2 := hok g hg
      rw [he] at h2
      exact Except.noConfusion h2
  refine ⟨?_, ?_, ?_, hok, herr⟩
  · intro h
    simp [findArg, h]
  · intro t hmem hget
    constructor
    · intro n hn
      simp [findArg, hmem, hget, hn]
    · intro hn
      simp [findArg, hmem, hget, hn]
  · intro hmem hnone
    simp [findArg, hmem, hnone]

/-- C9 witness: in the token list of a go command, wtime followed by 3000
parses to 3000 and lands in the wtime field; movetime, being absent,
yields none. -/
theorem C9_witness :
    parseU32 "3000" = some 3000 ∧
    findArg ["go", "wtime", "3000", "depth", "2"] "wtime" = Except.ok (some 3000) ∧
    findArg ["go", "wtime", "3000", "depth", "2"] "movetime" = Except.ok none := by
  refine ⟨by decide, ?_, ?_⟩
  · exact ((C9_go_argument_parsing ["go", "wtime", "3000", "depth", "2"] "wtime"
      (by decide)).2.1 "3000" (by decide) rfl).1 3000 (by decide)
  · exact (C9_go_argument_parsing ["go", "wtime", "3000", "depth", "2"] "movetime"
      (by decide)).1 (by decide)
